import Mathlib

/-!
Verification of the PDF-RAG upload/worker service.

Shallow embedding of the three source files:
- `src/app/server.py` : the HTTP handlers `upload_file` and `get_file_by_id`;
- `src/app/queue/workers.py` : the background worker `process_file`;
- `src/db/collections/files.py` : the `files` collection record shape.

The document store is modelled as a list of records (Mongo's `update_one`
updates the first matching document, `find_one` returns the first match).
Mongo ObjectIds are modelled by natural numbers; a BSON `_id` value can be
either an ObjectId or a plain string, which matters because the upload
handler filters one update by `str(inserted_id)` while the stored `_id`
is an ObjectId.
-/

/-- A BSON value used as an `_id` filter or field: either an ObjectId
(modelled by a `Nat`) or a plain string.  `ObjectId(x)` in the source
builds `oid`; `str(objectid)` produces a string. -/
inductive BsonId
  | oid (n : Nat)
  | str (s : String)
deriving DecidableEq

/-- The string form `str(object_id)` of an ObjectId (model: decimal digits). -/
def oidStr (n : Nat) : String := toString n

/-- Decimal digit value of a character, `none` for a non-digit. -/
def digVal (c : Char) : Option Nat :=
  if '0' ≤ c ∧ c ≤ '9' then some (c.toNat - '0'.toNat) else none

/-- Accumulating digit parser over a character list. -/
def parseDigits : List Char → Nat → Option Nat
  | [], acc => some acc
  | c :: cs, acc =>
    match digVal c with
    | none => none
    | some d => parseDigits cs (acc * 10 + d)

/-- Model of the `ObjectId(id)` constructor applied to a client string:
`some n` when the string is a well-formed id, `none` when the constructor
raises `InvalidId` (malformed string). -/
def parseObjectId (s : String) : Option Nat :=
  match s.data with
  | [] => none
  | c :: cs => parseDigits (c :: cs) 0

/-- One document of the `files` collection (`FileSchema`): `_id`, `name`,
`status`, and the optional `result` field (absent until set). -/
structure FileRecord where
  _id : BsonId
  name : String
  status : String
  result : Option String
deriving DecidableEq

/-- The argument of a Mongo `$set`: in this code base every update sets
`status`, and the final worker update additionally sets `result`. -/
structure SetDoc where
  status : String
  result : Option String
deriving DecidableEq

/-- Effect of applying a `$set` document to a record: `status` is replaced;
`result` is replaced when the `$set` carries one and kept otherwise. -/
def applySet (r : FileRecord) (s : SetDoc) : FileRecord :=
  FileRecord.mk r._id r.name s.status
    (match s.result with
     | some v => some v
     | none => r.result)

/-- `update_one` with filter on `_id`: rewrites the first document whose
`_id` equals the filter value, leaves everything else unchanged. -/
def updateDocs : List FileRecord → BsonId → SetDoc → List FileRecord
  | [], _, _ => []
  | r :: rs, fid, s =>
    if r._id = fid then applySet r s :: rs else r :: updateDocs rs fid s

/-- `find_one` with filter on `_id`: first document whose `_id` matches. -/
def findOne (docs : List FileRecord) (fid : BsonId) : Option FileRecord :=
  docs.find? fun r => r._id = fid

/-- Apply a chronological list of `update_one` writes to the collection. -/
def applyWrites (ws : List (BsonId × SetDoc)) (docs : List FileRecord) : List FileRecord :=
  ws.foldl (fun d w => updateDocs d w.1 w.2) docs

/-- The database handle: the `files` collection plus the generator state for
fresh ObjectIds (each `insert_one` receives a fresh id). -/
structure DB where
  docs : List FileRecord
  nextId : Nat
deriving DecidableEq

/-!
## HTTP layer (`src/app/server.py`)
-/

/-- The payload returned by `GET /` followed by `get_file_by_id`: the dict
literal at `server.py:25-30`, with exactly the four keys `_id`, `name`,
`status`, `result`; `result` is `None` when the record has no such field. -/
structure GetPayload where
  _id : String
  name : String
  status : String
  result : Option String
deriving DecidableEq

/-- Observable outcome of `GET` on a job id.  `ok` is a 200 with the payload;
`notFound` is a client-visible 404 (FastAPI `HTTPException(404)`) — the
handler contains no code path that produces it, the constructor exists only
as part of the observation space; `fault` is an unhandled exception escaping
the handler (`bson.errors.InvalidId` from `ObjectId(id)` or `TypeError` from
subscripting the `None` returned by `find_one`). -/
inductive GetResult
  | ok (p : GetPayload)
  | notFound
  | fault (msg : String)
deriving DecidableEq

/-- `get_file_by_id` (`server.py:21-30`): builds `ObjectId(id)` (raises on a
malformed id), runs `find_one` on `_id`, then subscripts the result (raises
`TypeError` when no document matched) and returns the four-field payload. -/
def get_file_by_id (docs : List FileRecord) (id : String) : GetResult :=
  match parseObjectId id with
  | none => GetResult.fault "InvalidId"
  | some n =>
    match findOne docs (BsonId.oid n) with
    | none => GetResult.fault "TypeError"
    | some r => GetResult.ok (GetPayload.mk (oidStr n) r.name r.status r.result)

/-- The observable side effects of the upload handler, in program order. -/
inductive UploadStep
  | insertRecord (name : String) (status : String) (result : Option String)
  | saveDisk (path : String) (content : String)
  | enqueue (id : String) (path : String)
  | updateRecord (fid : BsonId) (s : SetDoc)
  | respond (file_id : String)
deriving DecidableEq

/-- The kind of an upload side effect, forgetting its arguments. -/
inductive StepKind
  | insert
  | save
  | enq
  | update
  | respond
deriving DecidableEq

/-- Kind of an `UploadStep`. -/
def UploadStep.kind : UploadStep → StepKind
  | UploadStep.insertRecord _ _ _ => StepKind.insert
  | UploadStep.saveDisk _ _ => StepKind.save
  | UploadStep.enqueue _ _ => StepKind.enq
  | UploadStep.updateRecord _ _ => StepKind.update
  | UploadStep.respond _ => StepKind.respond

/-- Result of one call of the upload handler: the new database state, the
chronological side-effect trace, and the JSON response value `file_id`. -/
structure UploadOut where
  db : DB
  steps : List UploadStep
  file_id : String
deriving DecidableEq

/-- `upload_file` (`server.py:33-55`): `insert_one` a record
`{name, status: "saving"}` (Mongo assigns a fresh ObjectId), write the bytes
to `/mnt/uploads/{id}/{filename}`, enqueue `process_file(str(id), path)`,
then `update_one` with filter `{_id: str(inserted_id)}` and
`$set {status: "queued"}` — the filter value is the *string* form of the id
while every stored `_id` is an ObjectId — and return `{file_id: str(id)}`. -/
def upload_file (db : DB) (filename : String) (content : String) : UploadOut :=
  let n := db.nextId
  let idStr := oidStr n
  let newRec : FileRecord := FileRecord.mk (BsonId.oid n) filename "saving" none
  let docs1 := db.docs ++ [newRec]
  let file_path := "/mnt/uploads/" ++ idStr ++ "/" ++ filename
  let docs2 := updateDocs docs1 (BsonId.str idStr) (SetDoc.mk "queued" none)
  UploadOut.mk (DB.mk docs2 (n + 1))
    [UploadStep.insertRecord filename "saving" none,
     UploadStep.saveDisk file_path content,
     UploadStep.enqueue idStr file_path,
     UploadStep.updateRecord (BsonId.str idStr) (SetDoc.mk "queued" none),
     UploadStep.respond idStr]
    idStr

/-!
## Worker (`src/app/queue/workers.py`)

`process_file` never reads the database: it only issues `update_one` calls.
It is therefore embedded as a function from the external environment (the
rasterizer, the image files, the remote API) to the chronological list of
writes it issues, the API requests it sends, and the fault that stopped it,
if any.  The database effect of a run is `applyWrites` of its writes.
-/

/-- An abstract page image produced by the rasterizer (`convert_from_path`).
Only its identity matters: `WorkerEnv.b64` turns it into the base64 text of
its saved JPEG file. -/
structure Img where
  data : String
deriving DecidableEq

/-- One content item of the chat-completion request body: the code sends one
`text` item and one `image_url` item. -/
inductive ContentItem
  | text (s : String)
  | image_url (url : String)
deriving DecidableEq

/-- The remote chat-completion request: model name and the single user
message's content list. -/
structure ChatRequest where
  model : String
  content : List ContentItem
deriving DecidableEq

/-- The urls of the `image_url` items of a request, in order. -/
def imageUrlsOf (r : ChatRequest) : List String :=
  r.content.filterMap fun c =>
    match c with
    | ContentItem.image_url u => some u
    | ContentItem.text _ => none

/-- Where the worker faulted, when it did not run to completion.  `badId`:
`ObjectId(id)` raised; `convert`: `convert_from_path` raised; `save`:
`page.save` raised; `encode`: `encode_image` raised; `index`:
`image_base64[0]` on an empty list raised `IndexError`; `api`: the remote
call raised. -/
inductive Fault
  | badId
  | convert
  | save
  | encode
  | index
  | api
deriving DecidableEq

/-- The worker's external collaborators: the rasterizer outcome per input
path (`none` models a raised exception), fault switches for each
`page.save` and each `encode_image` call, the JPEG-plus-base64 encoding of
a page, and the remote API outcome per request. -/
structure WorkerEnv where
  convert : String → Option (List Img)
  saveFail : String → Img → Bool
  encodeFail : String → Bool
  b64 : Img → String
  apiResp : ChatRequest → Option String

/-- Path of the i-th page image file: the f-string at `workers.py:36`. -/
def imgPath (id : String) (i : Nat) : String :=
  "/mnt/uploads/images/" ++ id ++ "/image-" ++ toString i ++ ".jpg"

/-- The save loop (`workers.py:35-39`): save page `i` to `imgPath id i` and
collect the path together with the image now stored at it; stop at the
first raised save. -/
def saveAll (env : WorkerEnv) (id : String) : Nat → List Img → Except Fault (List (String × Img))
  | _, [] => Except.ok []
  | i, p :: ps =>
    if env.saveFail (imgPath id i) p then Except.error Fault.save
    else
      match saveAll env id (i + 1) ps with
      | Except.error e => Except.error e
      | Except.ok rest => Except.ok ((imgPath id i, p) :: rest)

/-- The encode comprehension (`workers.py:47` with `encode_image` at
`workers.py:14-16`): base64 of the file stored at each collected path. -/
def encodeAll (env : WorkerEnv) : List (String × Img) → Except Fault (List String)
  | [] => Except.ok []
  | pi :: rest =>
    if env.encodeFail pi.1 then Except.error Fault.encode
    else
      match encodeAll env rest with
      | Except.error e => Except.error e
      | Except.ok bs => Except.ok (env.b64 pi.2 :: bs)

/-- The fixed request the worker builds (`workers.py:48-68`): model
`gemini-2.0-flash`, one text item with the fixed prompt, and exactly one
`image_url` item carrying the data url of the given base64 string. -/
def mkRequest (b : String) : ChatRequest :=
  ChatRequest.mk "gemini-2.0-flash"
    [ContentItem.text "Based on the resume below, Roast this resume.",
     ContentItem.image_url ("data:image/jpeg;base64," ++ b)]

/-- Outcome of one worker run: chronological `update_one` writes (filter and
`$set` document), the requests sent to the remote API, and the fault that
ended the run (`none` when it ran to completion). -/
structure WorkerRun where
  writes : List (BsonId × SetDoc)
  apiRequests : List ChatRequest
  fault : Option Fault
deriving DecidableEq

/-- The statuses a run wrote, in order. -/
def WorkerRun.statusWrites (r : WorkerRun) : List String :=
  r.writes.map fun w => w.2.status

/-- `process_file` (`workers.py:19-74`): set status `processing`, then
`Converting to images`; rasterize; save each page; set
`Converting to images success`; base64-encode each saved image; build the
request around element 0 of the encoded list (an `IndexError` when the list
is empty) and send it; finally one `update_one` setting both status
`Processed` and `result` to the returned text.  A raised step ends the run
with no further writes. -/
def process_file (env : WorkerEnv) (id : String) (file_path : String) : WorkerRun :=
  match parseObjectId id with
  | none => WorkerRun.mk [] [] (some Fault.badId)
  | some n =>
    let fid := BsonId.oid n
    let w1 := (fid, SetDoc.mk "processing" none)
    let w2 := (fid, SetDoc.mk "Converting to images" none)
    match env.convert file_path with
    | none => WorkerRun.mk [w1, w2] [] (some Fault.convert)
    | some pages =>
      match saveAll env id 0 pages with
      | Except.error f => WorkerRun.mk [w1, w2] [] (some f)
      | Except.ok saved =>
        let w3 := (fid, SetDoc.mk "Converting to images success" none)
        match encodeAll env saved with
        | Except.error f => WorkerRun.mk [w1, w2, w3] [] (some f)
        | Except.ok image_base64 =>
          match image_base64 with
          | [] => WorkerRun.mk [w1, w2, w3] [] (some Fault.index)
          | b0 :: _ =>
            let req := mkRequest b0
            match env.apiResp req with
            | none => WorkerRun.mk [w1, w2, w3] [req] (some Fault.api)
            | some text =>
              WorkerRun.mk
                [w1, w2, w3, (fid, SetDoc.mk "Processed" (some text))]
                [req] none

/-- The four statuses the worker writes on a complete run, in order. -/
def canonicalStatuses : List String :=
  ["processing", "Converting to images", "Converting to images success", "Processed"]

/-- The four writes of a complete run on job `n` whose API answer is
`text`, in order. -/
def canonicalWrites (n : Nat) (text : String) : List (BsonId × SetDoc) :=
  [(BsonId.oid n, SetDoc.mk "processing" none),
   (BsonId.oid n, SetDoc.mk "Converting to images" none),
   (BsonId.oid n, SetDoc.mk "Converting to images success" none),
   (BsonId.oid n, SetDoc.mk "Processed" (some text))]

/-- Whether a BSON id value is an ObjectId (as opposed to a plain string).
Every record this system inserts carries an ObjectId `_id`. -/
def BsonId.isOid : BsonId → Bool
  | BsonId.oid _ => true
  | BsonId.str _ => false

/-- The claimed invariant of the record store: a document carries a `result`
field only when its status is `Processed`. -/
def ResultInv (docs : List FileRecord) : Prop :=
  ∀ r ∈ docs, r.result ≠ none → r.status = "Processed"

instance (docs : List FileRecord) : Decidable (ResultInv docs) := by
  unfold ResultInv
  infer_instance

/-- A concrete three-page environment in which every step succeeds. -/
def envOk : WorkerEnv :=
  WorkerEnv.mk
    (fun _ => some [Img.mk "page0", Img.mk "page1", Img.mk "page2"])
    (fun _ _ => false)
    (fun _ => false)
    (fun p => "b64-" ++ p.data)
    (fun _ => some "quite a roast")

/-- A concrete environment whose rasterizer raises. -/
def envConvertFails : WorkerEnv :=
  WorkerEnv.mk (fun _ => none) (fun _ _ => false) (fun _ => false)
    (fun p => "b64-" ++ p.data) (fun _ => some "quite a roast")

/-- A concrete environment whose rasterizer returns an empty page list. -/
def envZeroPages : WorkerEnv :=
  WorkerEnv.mk (fun _ => some []) (fun _ _ => false) (fun _ => false)
    (fun p => "b64-" ++ p.data) (fun _ => some "quite a roast")

example : oidStr 0 = "0" := by decide
example : parseObjectId "0" = some 0 := by decide
example : parseObjectId "zzz" = none := by decide
example : parseObjectId "" = none := by decide
example : parseObjectId "17" = some 17 := by decide

example :
    process_file envOk "0" "/mnt/uploads/0/resume.pdf" =
      WorkerRun.mk (canonicalWrites 0 "quite a roast")
        [mkRequest "b64-page0"] none := by decide

example :
    process_file envZeroPages "0" "/mnt/uploads/0/resume.pdf" =
      WorkerRun.mk ((canonicalWrites 0 "").take 3) [] (some Fault.index) := by decide

/-!
## Store lemmas
-/

lemma findOne_cons (r : FileRecord) (rs : List FileRecord) (fid : BsonId) :
    findOne (r :: rs) fid = if r._id = fid then some r else findOne rs fid := by
  by_cases h : r._id = fid <;> simp [findOne, List.find?, h]

lemma applySet_id (r : FileRecord) (s : SetDoc) : (applySet r s)._id = r._id := rfl

/-- `find_one` after `update_one` on the same filter sees the `$set`
applied to the previously found document. -/
lemma findOne_updateDocs_self (docs : List FileRecord) (fid : BsonId) (s : SetDoc) :
    findOne (updateDocs docs fid s) fid = (findOne docs fid).map (fun r => applySet r s) := by
  induction docs with
  | nil => rfl
  | cons r rs ih =>
    by_cases h : r._id = fid
    · have h2 : (applySet r s)._id = fid := by rw [applySet_id, h]
      simp [updateDocs, h, findOne_cons, h2]
    · simp [updateDocs, h, findOne_cons, ih]

/-- A found document satisfies the filter. -/
lemma findOne_some_id (docs : List FileRecord) (fid : BsonId) (r : FileRecord)
    (h : findOne docs fid = some r) : r._id = fid := by
  have := List.find?_some h
  simpa using this

/-- `update_one` whose filter matches no document changes nothing. -/
lemma updateDocs_no_match (docs : List FileRecord) (fid : BsonId) (s : SetDoc)
    (h : ∀ r ∈ docs, r._id ≠ fid) : updateDocs docs fid s = docs := by
  induction docs with
  | nil => rfl
  | cons r rs ih =>
    have h1 : r._id ≠ fid := h r (List.mem_cons_self r rs)
    simp [updateDocs, h1]
    exact ih fun x hx => h x (List.mem_cons_of_mem r hx)

/-- A `$set` that does not touch `result` with a target whose `result` is
absent preserves the invariant. -/
lemma inv_updateDocs_none (docs : List FileRecord) (fid : BsonId) (s : SetDoc)
    (hs : s.result = none) (hInv : ResultInv docs)
    (hfree : ∀ r ∈ docs, r._id = fid → r.result = none) :
    ResultInv (updateDocs docs fid s) := by
  induction docs with
  | nil => intro r hr; simp [updateDocs] at hr
  | cons r rs ih =>
    by_cases h : r._id = fid
    · intro x hx
      simp only [updateDocs, if_pos h] at hx
      rcases List.mem_cons.mp hx with hx | hx
      · subst hx
        intro hres
        exfalso
        apply hres
        simp [applySet, hs]
        exact hfree r (List.mem_cons_self r rs) h
      · exact hInv x (List.mem_cons_of_mem r hx)
    · intro x hx
      simp only [updateDocs, if_neg h] at hx
      rcases List.mem_cons.mp hx with hx | hx
      · subst hx
        exact hInv x (List.mem_cons_self x rs)
      · exact ih (fun y hy => hInv y (List.mem_cons_of_mem r hy))
          (fun y hy => hfree y (List.mem_cons_of_mem r hy)) x hx

/-- A `$set` whose status is `Processed` preserves the invariant. -/
lemma inv_updateDocs_processed (docs : List FileRecord) (fid : BsonId) (s : SetDoc)
    (hs : s.status = "Processed") (hInv : ResultInv docs) :
    ResultInv (updateDocs docs fid s) := by
  induction docs with
  | nil => intro r hr; simp [updateDocs] at hr
  | cons r rs ih =>
    by_cases h : r._id = fid
    · intro x hx
      simp only [updateDocs, if_pos h] at hx
      rcases List.mem_cons.mp hx with hx | hx
      · subst hx
        intro _
        simp [applySet, hs]
      · exact hInv x (List.mem_cons_of_mem r hx)
    · intro x hx
      simp only [updateDocs, if_neg h] at hx
      rcases List.mem_cons.mp hx with hx | hx
      · subst hx
        exact hInv x (List.mem_cons_self x rs)
      · exact ih (fun y hy => hInv y (List.mem_cons_of_mem r hy)) x hx

/-!
## Worker execution lemmas
-/

/-- The path/image pairs the save loop produces when no save raises. -/
def savedPairs (id : String) : Nat → List Img → List (String × Img)
  | _, [] => []
  | i, p :: ps => (imgPath id i, p) :: savedPairs id (i + 1) ps

lemma saveAll_no_fail (env : WorkerEnv) (id : String)
    (hsave : ∀ s im, env.saveFail s im = false) :
    ∀ (ps : List Img) (i : Nat), saveAll env id i ps = Except.ok (savedPairs id i ps) := by
  intro ps
  induction ps with
  | nil => intro i; rfl
  | cons p ps ih =>
    intro i
    simp [saveAll, hsave, savedPairs, ih (i + 1)]

lemma encodeAll_no_fail (env : WorkerEnv)
    (henc : ∀ s, env.encodeFail s = false) :
    ∀ l : List (String × Img),
      encodeAll env l = Except.ok (l.map fun pi => env.b64 pi.2) := by
  intro l
  induction l with
  | nil => rfl
  | cons pi rest ih => simp [encodeAll, henc, ih]

/-- On a document with at least one page and no raised save, encode or API
call, the run is the complete one: the four canonical writes and one
request carrying the base64 of page 0. -/
lemma process_file_complete (env : WorkerEnv) (id path : String) (n : Nat)
    (p : Img) (ps : List Img) (text : String)
    (hid : parseObjectId id = some n)
    (hconv : env.convert path = some (p :: ps))
    (hsave : ∀ s im, env.saveFail s im = false)
    (henc : ∀ s, env.encodeFail s = false)
    (hapi : env.apiResp (mkRequest (env.b64 p)) = some text) :
    process_file env id path =
      WorkerRun.mk (canonicalWrites n text) [mkRequest (env.b64 p)] none := by
  simp only [process_file, hid, hconv, saveAll_no_fail env id hsave,
    encodeAll_no_fail env henc, savedPairs, List.map_cons, hapi, canonicalWrites]

/-- Same premises but with a raised remote call: the same single request is
sent, the fourth write does not happen. -/
lemma process_file_api_fault (env : WorkerEnv) (id path : String) (n : Nat)
    (p : Img) (ps : List Img)
    (hid : parseObjectId id = some n)
    (hconv : env.convert path = some (p :: ps))
    (hsave : ∀ s im, env.saveFail s im = false)
    (henc : ∀ s, env.encodeFail s = false)
    (hapi : env.apiResp (mkRequest (env.b64 p)) = none) :
    process_file env id path =
      WorkerRun.mk ((canonicalWrites n "").take 3) [mkRequest (env.b64 p)]
        (some Fault.api) := by
  simp only [process_file, hid, hconv, saveAll_no_fail env id hsave,
    encodeAll_no_fail env henc, savedPairs, List.map_cons, hapi, canonicalWrites,
    List.take]

/-- Every worker run writes a prefix of the canonical write sequence, the
whole of it exactly when the run raised nothing. -/
lemma process_file_shape (env : WorkerEnv) (id path : String) (n : Nat)
    (hid : parseObjectId id = some n) :
    ∃ j text, j ≤ 4 ∧
      (process_file env id path).writes = (canonicalWrites n text).take j ∧
      ((process_file env id path).fault = none ↔ j = 4) := by
  simp only [process_file, hid]
  cases hc : env.convert path with
  | none => exact ⟨2, "", by omega, by simp [hc, canonicalWrites], by simp [hc]⟩
  | some pages =>
    cases hsv : saveAll env id 0 pages with
    | error f =>
      exact ⟨2, "", by omega, by simp [hc, hsv, canonicalWrites], by simp [hc, hsv]⟩
    | ok saved =>
      cases he : encodeAll env saved with
      | error f =>
        exact ⟨3, "", by omega, by simp [hc, hsv, he, canonicalWrites], by simp [hc, hsv, he]⟩
      | ok bs =>
        cases bs with
        | nil =>
          exact ⟨3, "", by omega, by simp [hc, hsv, he, canonicalWrites], by simp [hc, hsv, he]⟩
        | cons b0 rest =>
          cases ha : env.apiResp (mkRequest b0) with
          | none =>
            exact ⟨3, "", by omega, by simp [hc, hsv, he, ha, canonicalWrites],
              by simp [hc, hsv, he, ha]⟩
          | some text =>
            exact ⟨4, text, by omega, by simp [hc, hsv, he, ha, canonicalWrites],
              by simp [hc, hsv, he, ha]⟩

/-- The statuses of a prefix of the canonical writes are the same prefix of
the canonical status sequence. -/
lemma statusWrites_take (n : Nat) (text : String) (j : Nat) :
    ((canonicalWrites n text).take j).map (fun w => w.2.status) =
      canonicalStatuses.take j := by
  rw [List.map_take]
  simp [canonicalWrites, canonicalStatuses]

/-- A `$set` that does not touch `result` keeps `result` absent on every
document matching the filter. -/
lemma free_updateDocs_none (docs : List FileRecord) (fid : BsonId) (s : SetDoc)
    (hs : s.result = none)
    (hfree : ∀ r ∈ docs, r._id = fid → r.result = none) :
    ∀ r ∈ updateDocs docs fid s, r._id = fid → r.result = none := by
  induction docs with
  | nil => intro r hr; simp [updateDocs] at hr
  | cons r rs ih =>
    by_cases h : r._id = fid
    · intro x hx
      simp only [updateDocs, if_pos h] at hx
      rcases List.mem_cons.mp hx with hx | hx
      · subst hx
        intro _
        simp [applySet, hs]
        exact hfree r (List.mem_cons_self r rs) h
      · exact hfree x (List.mem_cons_of_mem r hx)
    · intro x hx
      simp only [updateDocs, if_neg h] at hx
      rcases List.mem_cons.mp hx with hx | hx
      · subst hx
        exact hfree x (List.mem_cons_self x rs)
      · exact ih (fun y hy => hfree y (List.mem_cons_of_mem r hy)) x hx

/-- The first three canonical writes never carry a `result`. -/
lemma canonical_prefix_result_none (n : Nat) (text : String) (k : Nat) (hk : k ≤ 3) :
    ∀ w ∈ (canonicalWrites n text).take k, w.2.result = none := by
  intro w hw
  have hw3 : w ∈ (canonicalWrites n text).take 3 := by
    have heq : (canonicalWrites n text).take k = ((canonicalWrites n text).take 3).take k := by
      rw [List.take_take, min_eq_left hk]
    exact List.take_subset _ _ (heq ▸ hw)
  have hw4 : w ∈ [(BsonId.oid n, SetDoc.mk "processing" none),
      (BsonId.oid n, SetDoc.mk "Converting to images" none),
      (BsonId.oid n, SetDoc.mk "Converting to images success" none)] := hw3
  simp only [List.mem_cons, List.not_mem_nil, or_false] at hw4
  rcases hw4 with rfl | rfl | rfl <;> rfl

/-- Every database state reached while applying any prefix of the canonical
worker writes keeps the result-implies-Processed invariant, provided the
targeted job has no `result` yet. -/
lemma inv_canonical_prefix (docs : List FileRecord) (n : Nat) (text : String)
    (hInv : ResultInv docs)
    (hfree : ∀ r ∈ docs, r._id = BsonId.oid n → r.result = none) :
    ∀ m, ResultInv (applyWrites ((canonicalWrites n text).take m) docs) := by
  have h1 : ResultInv (updateDocs docs (BsonId.oid n) (SetDoc.mk "processing" none)) :=
    inv_updateDocs_none docs (BsonId.oid n) (SetDoc.mk "processing" none) rfl hInv hfree
  have f1 := free_updateDocs_none docs (BsonId.oid n) (SetDoc.mk "processing" none) rfl hfree
  have h2 := inv_updateDocs_none _ (BsonId.oid n)
    (SetDoc.mk "Converting to images" none) rfl h1 f1
  have f2 := free_updateDocs_none _ (BsonId.oid n)
    (SetDoc.mk "Converting to images" none) rfl f1
  have h3 := inv_updateDocs_none _ (BsonId.oid n)
    (SetDoc.mk "Converting to images success" none) rfl h2 f2
  have h4 := inv_updateDocs_processed _ (BsonId.oid n)
    (SetDoc.mk "Processed" (some text)) rfl h3
  intro m
  match m with
  | 0 => exact hInv
  | 1 => exact h1
  | 2 => exact h2
  | 3 => exact h3
  | (k + 4) =>
    rw [List.take_of_length_le (by simp [canonicalWrites])]
    exact h4

/-- After any prefix of length at most three of the canonical writes, the
targeted record holds the last written status (its original one for the
empty prefix) and its `result` is untouched. -/
lemma findOne_applyWrites_canonical_prefix (docs : List FileRecord) (n : Nat)
    (text : String) (r : FileRecord)
    (hrec : findOne docs (BsonId.oid n) = some r) :
    ∀ k, k ≤ 3 →
      findOne (applyWrites ((canonicalWrites n text).take k) docs) (BsonId.oid n) =
        some (FileRecord.mk (BsonId.oid n) r.name
          ((canonicalStatuses.take k).getLastD r.status) r.result) := by
  have hid : r._id = BsonId.oid n := findOne_some_id docs (BsonId.oid n) r hrec
  obtain ⟨rid, rname, rstatus, rres⟩ := r
  simp only at hid
  subst hid
  intro k hk
  match k with
  | 0 => exact hrec
  | 1 =>
    show findOne (updateDocs docs (BsonId.oid n) (SetDoc.mk "processing" none))
      (BsonId.oid n) = _
    rw [findOne_updateDocs_self, hrec]
    rfl
  | 2 =>
    show findOne (updateDocs (updateDocs docs (BsonId.oid n)
        (SetDoc.mk "processing" none)) (BsonId.oid n)
        (SetDoc.mk "Converting to images" none)) (BsonId.oid n) = _
    rw [findOne_updateDocs_self, findOne_updateDocs_self, hrec]
    rfl
  | 3 =>
    show findOne (updateDocs (updateDocs (updateDocs docs (BsonId.oid n)
        (SetDoc.mk "processing" none)) (BsonId.oid n)
        (SetDoc.mk "Converting to images" none)) (BsonId.oid n)
        (SetDoc.mk "Converting to images success" none)) (BsonId.oid n) = _
    rw [findOne_updateDocs_self, findOne_updateDocs_self, findOne_updateDocs_self, hrec]
    rfl

/-- After the full canonical write sequence the targeted record has status
`Processed` and the API text as its `result`. -/
lemma findOne_applyWrites_canonical_full (docs : List FileRecord) (n : Nat)
    (text : String) (r : FileRecord)
    (hrec : findOne docs (BsonId.oid n) = some r) :
    findOne (applyWrites (canonicalWrites n text) docs) (BsonId.oid n) =
      some (FileRecord.mk (BsonId.oid n) r.name "Processed" (some text)) := by
  have hid : r._id = BsonId.oid n := findOne_some_id docs (BsonId.oid n) r hrec
  obtain ⟨rid, rname, rstatus, rres⟩ := r
  simp only at hid
  subst hid
  show findOne (updateDocs (updateDocs (updateDocs (updateDocs docs (BsonId.oid n)
      (SetDoc.mk "processing" none)) (BsonId.oid n)
      (SetDoc.mk "Converting to images" none)) (BsonId.oid n)
      (SetDoc.mk "Converting to images success" none)) (BsonId.oid n)
      (SetDoc.mk "Processed" (some text))) (BsonId.oid n) = _
  rw [findOne_updateDocs_self, findOne_updateDocs_self, findOne_updateDocs_self,
    findOne_updateDocs_self, hrec]
  rfl

/-!
## Claim theorems
-/

/-- C1: the claim says a status lookup immediately after an upload shows
`queued` or a later stage.  Evaluating the code on an upload into an empty
store: the handler does return the new job identifier, but the lookup
shows status `saving` — the handler's `queued` update filters `_id` by the
string form of the ObjectId, so it matches no stored document. -/
theorem upload_then_immediate_lookup_shows_saving :
    (upload_file (DB.mk [] 0) "resume.pdf" "rawbytes").file_id = "0" ∧
    get_file_by_id (upload_file (DB.mk [] 0) "resume.pdf" "rawbytes").db.docs
      (upload_file (DB.mk [] 0) "resume.pdf" "rawbytes").file_id =
      GetResult.ok (GetPayload.mk "0" "resume.pdf" "saving" none) ∧
    GetPayload.status (GetPayload.mk "0" "resume.pdf" "saving" none) ≠ "queued" := by
  decide

/-- C2 counterexample: on the malformed identifier `zzz` the lookup raises
`InvalidId` rather than returning a not-found error, and on the unknown
(well-formed) identifier `7` against a store holding only job `0` it raises
`TypeError`; neither is the claimed not-found outcome. -/
theorem lookup_malformed_raises_instead_of_notFound :
    get_file_by_id [] "zzz" = GetResult.fault "InvalidId" ∧
    get_file_by_id [] "zzz" ≠ GetResult.notFound ∧
    get_file_by_id [FileRecord.mk (BsonId.oid 0) "resume.pdf" "queued" none] "7" =
      GetResult.fault "TypeError" ∧
    get_file_by_id [FileRecord.mk (BsonId.oid 0) "resume.pdf" "queued" none] "7" ≠
      GetResult.notFound := by
  decide

/-- C2 amended: for every identifier that is malformed or does not
correspond to a stored record, the lookup does not return a record — it
raises an unhandled fault (`InvalidId` or `TypeError`), not a not-found
error. -/
theorem lookup_unknown_or_malformed_faults (docs : List FileRecord) (id : String)
    (h : parseObjectId id = none ∨
      ∃ n, parseObjectId id = some n ∧ findOne docs (BsonId.oid n) = none) :
    ∃ m, get_file_by_id docs id = GetResult.fault m := by
  rcases h with h | ⟨n, h1, h2⟩
  · exact ⟨"InvalidId", by simp [get_file_by_id, h]⟩
  · exact ⟨"TypeError", by simp [get_file_by_id, h1, h2]⟩

/-- Witness for the amended C2 at the concrete malformed identifier `zzz`. -/
theorem lookup_unknown_or_malformed_faults_witness :
    (parseObjectId "zzz" = none ∨
      ∃ n, parseObjectId "zzz" = some n ∧ findOne [] (BsonId.oid n) = none) ∧
    ∃ m, get_file_by_id [] "zzz" = GetResult.fault m :=
  ⟨Or.inl (by decide),
   lookup_unknown_or_malformed_faults [] "zzz" (Or.inl (by decide))⟩

/-- C5 counterexample: the upload handler's side-effect trace is not the
claimed four-step sequence insert, save, enqueue, respond — evaluated on an
upload into an empty store it has a fifth step, a status update, between
the enqueue and the response. -/
theorem upload_trace_is_not_four_steps :
    ¬ ((upload_file (DB.mk [] 0) "resume.pdf" "rawbytes").steps.map UploadStep.kind =
      [StepKind.insert, StepKind.save, StepKind.enq, StepKind.respond]) := by
  decide

/-- C5 amended: every upload performs exactly these steps in this order:
insert a record named after the file with status `saving` and no result;
write the uploaded bytes to `/mnt/uploads/` + id + `/` + filename; enqueue
a task carrying the job identifier and that path; issue a `queued` status
update whose filter is the string form of the identifier (matching no
stored record); and respond with the job identifier as `file_id`. -/
theorem upload_step_trace (db : DB) (filename content : String) :
    (upload_file db filename content).steps =
      [UploadStep.insertRecord filename "saving" none,
       UploadStep.saveDisk ("/mnt/uploads/" ++ oidStr db.nextId ++ "/" ++ filename) content,
       UploadStep.enqueue (oidStr db.nextId)
         ("/mnt/uploads/" ++ oidStr db.nextId ++ "/" ++ filename),
       UploadStep.updateRecord (BsonId.str (oidStr db.nextId)) (SetDoc.mk "queued" none),
       UploadStep.respond (oidStr db.nextId)] ∧
    (upload_file db filename content).file_id = oidStr db.nextId := by
  exact ⟨rfl, rfl⟩

/-- C7: for every identifier that parses and matches a stored record, the
lookup returns a 200 whose payload has exactly the fields `_id` (the
identifier as a string), `name`, `status`, and `result`, the latter `none`
exactly when the record carries no result. -/
theorem lookup_existing_record_payload (docs : List FileRecord) (id : String)
    (n : Nat) (r : FileRecord)
    (hid : parseObjectId id = some n)
    (hrec : findOne docs (BsonId.oid n) = some r) :
    get_file_by_id docs id =
      GetResult.ok (GetPayload.mk (oidStr n) r.name r.status r.result) := by
  simp [get_file_by_id, hid, hrec]

/-- Witness for C7 on a store holding one queued job. -/
theorem lookup_existing_record_payload_witness :
    parseObjectId "0" = some 0 ∧
    findOne [FileRecord.mk (BsonId.oid 0) "resume.pdf" "queued" none] (BsonId.oid 0) =
      some (FileRecord.mk (BsonId.oid 0) "resume.pdf" "queued" none) ∧
    get_file_by_id [FileRecord.mk (BsonId.oid 0) "resume.pdf" "queued" none] "0" =
      GetResult.ok (GetPayload.mk (oidStr 0) "resume.pdf" "queued" none) :=
  ⟨by decide, by decide,
   lookup_existing_record_payload
     [FileRecord.mk (BsonId.oid 0) "resume.pdf" "queued" none] "0" 0
     (FileRecord.mk (BsonId.oid 0) "resume.pdf" "queued" none)
     (by decide) (by decide)⟩

/-- C3: whenever the document rasterizes to at least one page and the run
reaches the remote call (no raised save or encode), the worker sends
exactly one request, that request carries exactly one image url, and the
image is the base64 of the saved JPEG of page 0 — for any page count. -/
theorem worker_sends_exactly_one_image_first_page
    (env : WorkerEnv) (id path : String) (n : Nat) (p : Img) (ps : List Img)
    (hid : parseObjectId id = some n)
    (hconv : env.convert path = some (p :: ps))
    (hsave : ∀ s im, env.saveFail s im = false)
    (henc : ∀ s, env.encodeFail s = false) :
    (process_file env id path).apiRequests = [mkRequest (env.b64 p)] ∧
    imageUrlsOf (mkRequest (env.b64 p)) = ["data:image/jpeg;base64," ++ env.b64 p] := by
  constructor
  · cases hapi : env.apiResp (mkRequest (env.b64 p)) with
    | none =>
      rw [process_file_api_fault env id path n p ps hid hconv hsave henc hapi]
    | some text =>
      rw [process_file_complete env id path n p ps text hid hconv hsave henc hapi]
  · rfl

/-- Witness for C3 on a three-page document. -/
theorem worker_sends_exactly_one_image_first_page_witness :
    parseObjectId "0" = some 0 ∧
    envOk.convert "/mnt/uploads/0/resume.pdf" =
      some [Img.mk "page0", Img.mk "page1", Img.mk "page2"] ∧
    (∀ s im, envOk.saveFail s im = false) ∧
    (∀ s, envOk.encodeFail s = false) ∧
    ((process_file envOk "0" "/mnt/uploads/0/resume.pdf").apiRequests =
        [mkRequest (envOk.b64 (Img.mk "page0"))] ∧
      imageUrlsOf (mkRequest (envOk.b64 (Img.mk "page0"))) =
        ["data:image/jpeg;base64," ++ envOk.b64 (Img.mk "page0")]) :=
  ⟨by decide, by decide, fun _ _ => rfl, fun _ => rfl,
   worker_sends_exactly_one_image_first_page envOk "0" "/mnt/uploads/0/resume.pdf" 0
     (Img.mk "page0") [Img.mk "page1", Img.mk "page2"]
     (by decide) (by decide) (fun _ _ => rfl) (fun _ => rfl)⟩

/-- C4: a run on which every step succeeds writes exactly the four canonical
updates, raises nothing, and the last update — a single `update_one` —
sets both status `Processed` and the API's returned text as `result`;
afterwards the record carries exactly those two values. -/
theorem worker_completion_sets_processed_and_result
    (env : WorkerEnv) (id path : String) (n : Nat) (p : Img) (ps : List Img)
    (text : String) (docs : List FileRecord) (r : FileRecord)
    (hid : parseObjectId id = some n)
    (hconv : env.convert path = some (p :: ps))
    (hsave : ∀ s im, env.saveFail s im = false)
    (henc : ∀ s, env.encodeFail s = false)
    (hapi : env.apiResp (mkRequest (env.b64 p)) = some text)
    (hrec : findOne docs (BsonId.oid n) = some r) :
    (process_file env id path).fault = none ∧
    (process_file env id path).writes = canonicalWrites n text ∧
    findOne (applyWrites (process_file env id path).writes docs) (BsonId.oid n) =
      some (FileRecord.mk (BsonId.oid n) r.name "Processed" (some text)) := by
  rw [process_file_complete env id path n p ps text hid hconv hsave henc hapi]
  exact ⟨rfl, rfl, findOne_applyWrites_canonical_full docs n text r hrec⟩

/-- Witness for C4 on a three-page document over a store with one job. -/
theorem worker_completion_sets_processed_and_result_witness :
    parseObjectId "0" = some 0 ∧
    envOk.convert "/mnt/uploads/0/resume.pdf" =
      some [Img.mk "page0", Img.mk "page1", Img.mk "page2"] ∧
    (∀ s im, envOk.saveFail s im = false) ∧
    (∀ s, envOk.encodeFail s = false) ∧
    envOk.apiResp (mkRequest (envOk.b64 (Img.mk "page0"))) = some "quite a roast" ∧
    findOne [FileRecord.mk (BsonId.oid 0) "resume.pdf" "saving" none] (BsonId.oid 0) =
      some (FileRecord.mk (BsonId.oid 0) "resume.pdf" "saving" none) ∧
    ((process_file envOk "0" "/mnt/uploads/0/resume.pdf").fault = none ∧
      (process_file envOk "0" "/mnt/uploads/0/resume.pdf").writes =
        canonicalWrites 0 "quite a roast" ∧
      findOne (applyWrites (process_file envOk "0" "/mnt/uploads/0/resume.pdf").writes
          [FileRecord.mk (BsonId.oid 0) "resume.pdf" "saving" none]) (BsonId.oid 0) =
        some (FileRecord.mk (BsonId.oid 0) "resume.pdf" "Processed"
          (some "quite a roast"))) :=
  ⟨by decide, by decide, fun _ _ => rfl, fun _ => rfl, by decide, by decide,
   worker_completion_sets_processed_and_result envOk "0" "/mnt/uploads/0/resume.pdf" 0
     (Img.mk "page0") [Img.mk "page1", Img.mk "page2"] "quite a roast"
     [FileRecord.mk (BsonId.oid 0) "resume.pdf" "saving" none]
     (FileRecord.mk (BsonId.oid 0) "resume.pdf" "saving" none)
     (by decide) (by decide) (fun _ _ => rfl) (fun _ => rfl) (by decide) (by decide)⟩

/-- C6: on every run the worker writes statuses that form a prefix of the
fixed sequence processing, Converting to images, Converting to images
success, Processed — in that order, never any other value, never moving
backwards — and a run that raised nothing writes the whole sequence. -/
theorem worker_status_writes_follow_fixed_sequence (env : WorkerEnv) (id path : String) :
    (∃ k, (process_file env id path).statusWrites = canonicalStatuses.take k) ∧
    ((process_file env id path).fault = none →
      (process_file env id path).statusWrites = canonicalStatuses) := by
  cases hid : parseObjectId id with
  | none =>
    constructor
    · exact ⟨0, by simp [process_file, hid, WorkerRun.statusWrites]⟩
    · intro h
      exfalso
      simp [process_file, hid] at h
  | some n =>
    obtain ⟨j, text, hj, hw, hiff⟩ := process_file_shape env id path n hid
    constructor
    · refine ⟨j, ?_⟩
      simp only [WorkerRun.statusWrites]
      rw [hw, statusWrites_take]
    · intro h
      have hj4 := hiff.mp h
      subst hj4
      simp only [WorkerRun.statusWrites]
      rw [hw, statusWrites_take]
      decide

/-- C8: whenever a run raises (any step), every write it made set only a
status, the statuses it wrote are a proper prefix (length at most three) of
the canonical sequence, and afterwards the record holds exactly the last
status set before the fault with its `result` untouched. -/
theorem worker_fault_stops_updates
    (env : WorkerEnv) (id path : String) (n : Nat) (f : Fault)
    (docs : List FileRecord) (r : FileRecord)
    (hid : parseObjectId id = some n)
    (hf : (process_file env id path).fault = some f)
    (hrec : findOne docs (BsonId.oid n) = some r) :
    (∀ w ∈ (process_file env id path).writes, w.2.result = none) ∧
    ∃ k, k ≤ 3 ∧
      (process_file env id path).statusWrites = canonicalStatuses.take k ∧
      findOne (applyWrites (process_file env id path).writes docs) (BsonId.oid n) =
        some (FileRecord.mk (BsonId.oid n) r.name
          ((canonicalStatuses.take k).getLastD r.status) r.result) := by
  obtain ⟨j, text, hj, hw, hiff⟩ := process_file_shape env id path n hid
  have hj3 : j ≤ 3 := by
    by_contra hcon
    have hj4 : j = 4 := by omega
    have hnone := hiff.mpr hj4
    rw [hnone] at hf
    exact Option.noConfusion hf
  constructor
  · intro w hwmem
    rw [hw] at hwmem
    exact canonical_prefix_result_none n text j hj3 w hwmem
  · refine ⟨j, hj3, ?_, ?_⟩
    · simp only [WorkerRun.statusWrites]
      rw [hw, statusWrites_take]
    · rw [hw]
      exact findOne_applyWrites_canonical_prefix docs n text r hrec j hj3

/-- Witness for C8 with a rasterizer that raises: the job keeps status
`Converting to images` and no result. -/
theorem worker_fault_stops_updates_witness :
    parseObjectId "0" = some 0 ∧
    (process_file envConvertFails "0" "/mnt/uploads/0/resume.pdf").fault =
      some Fault.convert ∧
    findOne [FileRecord.mk (BsonId.oid 0) "resume.pdf" "queued" none] (BsonId.oid 0) =
      some (FileRecord.mk (BsonId.oid 0) "resume.pdf" "queued" none) ∧
    ((∀ w ∈ (process_file envConvertFails "0" "/mnt/uploads/0/resume.pdf").writes,
        w.2.result = none) ∧
      ∃ k, k ≤ 3 ∧
        (process_file envConvertFails "0" "/mnt/uploads/0/resume.pdf").statusWrites =
          canonicalStatuses.take k ∧
        findOne (applyWrites
            (process_file envConvertFails "0" "/mnt/uploads/0/resume.pdf").writes
            [FileRecord.mk (BsonId.oid 0) "resume.pdf" "queued" none]) (BsonId.oid 0) =
          some (FileRecord.mk (BsonId.oid 0) "resume.pdf"
            ((canonicalStatuses.take k).getLastD "queued") none)) :=
  ⟨by decide, by decide, by decide,
   worker_fault_stops_updates envConvertFails "0" "/mnt/uploads/0/resume.pdf" 0
     Fault.convert [FileRecord.mk (BsonId.oid 0) "resume.pdf" "queued" none]
     (FileRecord.mk (BsonId.oid 0) "resume.pdf" "queued" none)
     (by decide) (by decide) (by decide)⟩

/-- C10: on a document with zero pages the run raises `IndexError` at
`image_base64[0]` after the third status write: the remote API is never
called, the record's `result` is untouched, and the last written status is
`Converting to images success`. -/
theorem zero_pages_worker_faults_before_api
    (env : WorkerEnv) (id path : String) (n : Nat)
    (docs : List FileRecord) (r : FileRecord)
    (hid : parseObjectId id = some n)
    (hconv : env.convert path = some [])
    (hrec : findOne docs (BsonId.oid n) = some r) :
    (process_file env id path).fault = some Fault.index ∧
    (process_file env id path).apiRequests = [] ∧
    (process_file env id path).statusWrites = canonicalStatuses.take 3 ∧
    findOne (applyWrites (process_file env id path).writes docs) (BsonId.oid n) =
      some (FileRecord.mk (BsonId.oid n) r.name "Converting to images success"
        r.result) := by
  have hrun : process_file env id path =
      WorkerRun.mk ((canonicalWrites n "").take 3) [] (some Fault.index) := by
    simp only [process_file, hid, hconv]
    rfl
  rw [hrun]
  refine ⟨rfl, rfl, ?_, ?_⟩
  · simp only [WorkerRun.statusWrites]
    rw [statusWrites_take]
  · exact findOne_applyWrites_canonical_prefix docs n "" r hrec 3 (by omega)

/-- Witness for C10 with a zero-page rasterization. -/
theorem zero_pages_worker_faults_before_api_witness :
    parseObjectId "0" = some 0 ∧
    envZeroPages.convert "/mnt/uploads/0/resume.pdf" = some [] ∧
    findOne [FileRecord.mk (BsonId.oid 0) "resume.pdf" "queued" none] (BsonId.oid 0) =
      some (FileRecord.mk (BsonId.oid 0) "resume.pdf" "queued" none) ∧
    ((process_file envZeroPages "0" "/mnt/uploads/0/resume.pdf").fault =
        some Fault.index ∧
      (process_file envZeroPages "0" "/mnt/uploads/0/resume.pdf").apiRequests = [] ∧
      (process_file envZeroPages "0" "/mnt/uploads/0/resume.pdf").statusWrites =
        canonicalStatuses.take 3 ∧
      findOne (applyWrites
          (process_file envZeroPages "0" "/mnt/uploads/0/resume.pdf").writes
          [FileRecord.mk (BsonId.oid 0) "resume.pdf" "queued" none]) (BsonId.oid 0) =
        some (FileRecord.mk (BsonId.oid 0) "resume.pdf"
          "Converting to images success" none)) :=
  ⟨by decide, by decide, by decide,
   zero_pages_worker_faults_before_api envZeroPages "0" "/mnt/uploads/0/resume.pdf" 0
     [FileRecord.mk (BsonId.oid 0) "resume.pdf" "queued" none]
     (FileRecord.mk (BsonId.oid 0) "resume.pdf" "queued" none)
     (by decide) (by decide) (by decide)⟩

/-- C9: the record store keeps the invariant "a record carries `result`
only with status `Processed`" across every state the two writers produce:
after the upload's insert, after the whole upload (its `queued` update
matches no record since all stored ids are ObjectIds), and after every
prefix of the worker's writes — every intermediate worker update sets only
a status, and `result` is only written together with status `Processed`. -/
theorem result_only_with_status_processed
    (db : DB) (env : WorkerEnv) (id path filename content : String) (n : Nat)
    (hInv : ResultInv db.docs)
    (hwf : ∀ r ∈ db.docs, r._id.isOid = true)
    (hid : parseObjectId id = some n)
    (hfree : ∀ r ∈ db.docs, r._id = BsonId.oid n → r.result = none) :
    ResultInv (db.docs ++ [FileRecord.mk (BsonId.oid db.nextId) filename "saving" none]) ∧
    ResultInv (upload_file db filename content).db.docs ∧
    ∀ k, ResultInv (applyWrites ((process_file env id path).writes.take k) db.docs) := by
  have hins : ResultInv
      (db.docs ++ [FileRecord.mk (BsonId.oid db.nextId) filename "saving" none]) := by
    intro x hx
    rcases List.mem_append.mp hx with hx | hx
    · exact hInv x hx
    · rw [List.mem_singleton] at hx
      subst hx
      intro hres
      exact absurd rfl hres
  refine ⟨hins, ?_, ?_⟩
  · show ResultInv (updateDocs
      (db.docs ++ [FileRecord.mk (BsonId.oid db.nextId) filename "saving" none])
      (BsonId.str (oidStr db.nextId)) (SetDoc.mk "queued" none))
    rw [updateDocs_no_match]
    · exact hins
    · intro x hx
      rcases List.mem_append.mp hx with hx | hx
      · have hons := hwf x hx
        intro heq
        rw [heq] at hons
        simp [BsonId.isOid] at hons
      · rw [List.mem_singleton] at hx
        subst hx
        simp
  · intro k
    obtain ⟨j, text, hj, hw, hiff⟩ := process_file_shape env id path n hid
    rw [hw, List.take_take]
    exact inv_canonical_prefix db.docs n text hInv hfree (min k j)

/-- Witness for C9 on a one-job store processed by the all-success
environment. -/
theorem result_only_with_status_processed_witness :
    ResultInv (DB.mk [FileRecord.mk (BsonId.oid 0) "resume.pdf" "saving" none] 1).docs ∧
    (∀ r ∈ (DB.mk [FileRecord.mk (BsonId.oid 0) "resume.pdf" "saving" none] 1).docs,
      r._id.isOid = true) ∧
    parseObjectId "0" = some 0 ∧
    (∀ r ∈ (DB.mk [FileRecord.mk (BsonId.oid 0) "resume.pdf" "saving" none] 1).docs,
      r._id = BsonId.oid 0 → r.result = none) ∧
    (ResultInv ((DB.mk [FileRecord.mk (BsonId.oid 0) "resume.pdf" "saving" none] 1).docs ++
        [FileRecord.mk (BsonId.oid 1) "cv.pdf" "saving" none]) ∧
      ResultInv (upload_file
        (DB.mk [FileRecord.mk (BsonId.oid 0) "resume.pdf" "saving" none] 1)
        "cv.pdf" "rawbytes").db.docs ∧
      ∀ k, ResultInv (applyWrites
        ((process_file envOk "0" "/mnt/uploads/0/resume.pdf").writes.take k)
        (DB.mk [FileRecord.mk (BsonId.oid 0) "resume.pdf" "saving" none] 1).docs)) :=
  ⟨by decide, by decide, by decide, by decide,
   result_only_with_status_processed
     (DB.mk [FileRecord.mk (BsonId.oid 0) "resume.pdf" "saving" none] 1)
     envOk "0" "/mnt/uploads/0/resume.pdf" "cv.pdf" "rawbytes" 0
     (by decide) (by decide) (by decide) (by decide)⟩
